import Mathlib

/-!
Verification of the vrc_doorkeeper log-ingestion and event-suppression
pipeline (Rust sources: src/main.rs, src/reader.rs, src/vrc.rs,
src/vrc/log.rs, src/xsoverlay.rs) against its design specification.

Shallow embedding conventions:
* instants (`chrono::DateTime<Utc>` / `DateTime<Local>`) are modelled as
  `Int` (seconds); `Duration::seconds 5` becomes `+ 5`;
* file contents are `List Char`; byte offsets count UTF-8 bytes via
  `Char.utf8Size`, matching the Rust reader's byte-based cursor;
* the `Local` timezone's `from_local_datetime` is an explicit parameter
  `resolve : NaiveDateTime → LocalResult` (chrono's `LocalResult` with the
  `Ambiguous (earliest, latest)` ordering contract);
* fallible IO is `Except IOErrorKind`, the UDP sink is an abstract
  `send : MessageObject → Except SendMessageError Unit` oracle.
-/

namespace VrcDoorkeeper

/-! ## Data model (src/vrc.rs, src/vrc/log.rs) -/

/-- `vrc::Event` — the closed set of lifecycle events. -/
inductive Event where
  | OnJoinedRoom
  | OnPlayerJoined (user_name : String)
  | OnLeftRoom
  | OnPlayerLeft (user_name : String)
  | UserAuthenticated (user_name : String)
deriving DecidableEq, Repr

/-- `vrc::log::LogLevel`. -/
inductive LogLevel where
  | Debug
  | Log
  | Warning
  | Error
deriving DecidableEq, Repr

/-- A naive (zone-less) local timestamp, as produced by
`NaiveDateTime::parse_from_str` on the captured header timestamp. -/
structure NaiveDateTime where
  year : Nat
  month : Nat
  day : Nat
  hour : Nat
  minute : Nat
  second : Nat
deriving DecidableEq, Repr

/-- chrono's `LocalResult<DateTime<Local>>`: resolution of a naive local
time against a timezone.  chrono guarantees that `ambiguous e l` carries
the earliest candidate first. -/
inductive LocalResult where
  | none
  | single (t : Int)
  | ambiguous (earliest latest : Int)
deriving DecidableEq, Repr

/-- chrono's `LocalResult::earliest`. -/
def LocalResult.earliest : LocalResult → Option Int
  | .none => Option.none
  | .single t => some t
  | .ambiguous t _ => some t

/-- `vrc::log::LogLine` — one parsed record; `time` is the resolved local
instant. -/
structure LogLine where
  time : Int
  log_level : LogLevel
  event : Option Event
  body : String
deriving DecidableEq, Repr

/-! ## Outbound message objects (src/xsoverlay.rs)

The f32 visual parameters are modelled as exact rationals (all literals in
the source are exactly representable). -/

/-- `xsoverlay::MessageType` (serde_repr values 1 and 2). -/
inductive MessageType where
  | notificationPopup
  | mediaPlayerInformation
deriving DecidableEq, Repr

/-- The numeric wire value of a `MessageType`. -/
def MessageType.code : MessageType → Nat
  | .notificationPopup => 1
  | .mediaPlayerInformation => 2

/-- `xsoverlay::NotificationType` (shared by audio and icon fields). -/
inductive NotificationType where
  | default
  | error
  | warning
  | custom (v : String)
deriving DecidableEq, Repr

/-- `xsoverlay::MessageObject`. -/
structure MessageObject where
  message_type : MessageType
  index : Int
  timeout : ℚ
  height : ℚ
  opacity : ℚ
  volume : ℚ
  audio_path : NotificationType
  title : String
  content : String
  use_base64_icon : Bool
  icon : NotificationType
  source_app : String
deriving DecidableEq, Repr

/-- `xsoverlay::MessageObjectBuilder`. -/
structure MessageObjectBuilder where
  source : MessageObject
deriving DecidableEq, Repr

/-- `MessageObjectBuilder::new` with the source's default field values. -/
def MessageObjectBuilder.new (title : String) : MessageObjectBuilder :=
  ⟨{ message_type := .notificationPopup
     index := 0
     timeout := 1.5
     height := 175
     opacity := 1
     volume := 0.7
     audio_path := .default
     title := title
     content := ""
     use_base64_icon := false
     icon := .default
     source_app := "xsoverlay_vrc_notifier" }⟩

/-- `MessageObjectBuilder::build`. -/
def MessageObjectBuilder.build (b : MessageObjectBuilder) : MessageObject :=
  b.source

/-- `MessageObjectBuilder::set_content`. -/
def MessageObjectBuilder.set_content (b : MessageObjectBuilder) (content : String) :
    MessageObjectBuilder :=
  ⟨{ b.source with content := content }⟩

/-- `MessageObjectBuilder::set_audio`. -/
def MessageObjectBuilder.set_audio (b : MessageObjectBuilder) (audio : NotificationType) :
    MessageObjectBuilder :=
  ⟨{ b.source with audio_path := audio }⟩

/-- `MessageObjectBuilder::set_icon`. -/
def MessageObjectBuilder.set_icon (b : MessageObjectBuilder) (icon : NotificationType)
    (is_base64 : Bool) : MessageObjectBuilder :=
  ⟨{ b.source with icon := icon, use_base64_icon := is_base64 }⟩

/-- `MessageObjectBuilder::set_timeout`. -/
def MessageObjectBuilder.set_timeout (b : MessageObjectBuilder) (timeout : ℚ) :
    MessageObjectBuilder :=
  ⟨{ b.source with timeout := timeout }⟩

/-- `xsoverlay::SendMessageError` — JSON-encoding failure or UDP send
failure (the payload strings stand for the wrapped error values). -/
inductive SendMessageError where
  | jsonError (msg : String)
  | sendError (msg : String)
deriving DecidableEq, Repr

/-! ## The notifier (src/main.rs)

`VrcToXsOverlayNotifier` holds the `NotificationClient` and a
`CurrentTimeProvider`; its only mutable state is `notifiable_since`.  The
client is modelled by a send oracle passed where needed, and each
`process_line` call takes the current real-time clock reading `now`
(the reading the `CurrentTimeProvider` returns during that call). -/

/-- The mutable state of `VrcToXsOverlayNotifier`: the
`notifiable_since : Option<DateTime<Utc>>` field. -/
structure VrcToXsOverlayNotifier where
  notifiable_since : Option Int
deriving DecidableEq, Repr

/-- The suppression-window test at the top of
`VrcToXsOverlayNotifier::to_notification_object`: the current time is
still strictly before `notifiable_since`. -/
def VrcToXsOverlayNotifier.windowActive (s : VrcToXsOverlayNotifier) (now : Int) : Bool :=
  match s.notifiable_since with
  | some ns => decide (now < ns)
  | Option.none => false

/-- `VrcToXsOverlayNotifier::to_notification_object`: return early when a
suppression window is active, otherwise build a popup for
`OnPlayerJoined` / `OnPlayerLeft` and nothing for any other event. -/
def VrcToXsOverlayNotifier.to_notification_object (s : VrcToXsOverlayNotifier)
    (now : Int) (line : LogLine) : Option MessageObject :=
  if s.windowActive now then Option.none
  else
    match line.event with
    | some (Event.OnPlayerJoined user_name) =>
        some (((MessageObjectBuilder.new (user_name ++ " joined.")).set_timeout 1).build)
    | some (Event.OnPlayerLeft user_name) =>
        some (((MessageObjectBuilder.new (user_name ++ " left.")).set_timeout 1).build)
    | _ => Option.none

/-- The state-update-and-decision core of
`VrcToXsOverlayNotifier::process_line`: early-return on `is_first`,
reset `notifiable_since` to `now + 5` seconds on `OnJoinedRoom` /
`OnLeftRoom`, then ask `to_notification_object` (on the updated state,
as in the source).  The returned `Option MessageObject` is the message
the source would attempt to send; the send attempt itself is modelled by
`process_line_send`. -/
def process_line (s : VrcToXsOverlayNotifier) (now : Int) (line : LogLine)
    (is_first : Bool) : VrcToXsOverlayNotifier × Option MessageObject :=
  if is_first then (s, Option.none)
  else
    let s' : VrcToXsOverlayNotifier :=
      match line.event with
      | some Event.OnJoinedRoom | some Event.OnLeftRoom =>
          { notifiable_since := some (now + 5) }
      | _ => s
    (s', s'.to_notification_object now line)

/-- `process_line` including the send attempt: when a message is built,
the client's `send_message` (the oracle `send`) is invoked and its result
only logged, never stored. -/
def process_line_send (send : MessageObject → Except SendMessageError Unit)
    (s : VrcToXsOverlayNotifier) (now : Int) (line : LogLine) (is_first : Bool) :
    VrcToXsOverlayNotifier × Option (Except SendMessageError Unit) :=
  let r := process_line s now line is_first
  (r.1, r.2.map send)

/-- One trace entry: the clock reading at processing time, the parsed
line, and the `is_first` flag. -/
abbrev TraceEntry := Int × LogLine × Bool

/-- Run the notifier over a list of lines, collecting for each line the
message it would attempt to send (`none` = no notification). -/
def processTrace (s : VrcToXsOverlayNotifier) :
    List TraceEntry → VrcToXsOverlayNotifier × List (Option MessageObject)
  | [] => (s, [])
  | (now, line, isf) :: rest =>
    let r := process_line s now line isf
    let t := processTrace r.1 rest
    (t.1, r.2 :: t.2)

/-- Run the notifier over a list of lines with a send oracle, collecting
each line's send attempt result. -/
def processTraceSend (send : MessageObject → Except SendMessageError Unit)
    (s : VrcToXsOverlayNotifier) :
    List TraceEntry → VrcToXsOverlayNotifier × List (Option (Except SendMessageError Unit))
  | [] => (s, [])
  | (now, line, isf) :: rest =>
    let r := process_line_send send s now line isf
    let t := processTraceSend send r.1 rest
    (t.1, r.2 :: t.2)

/-- Is the line a room-transition line (`OnJoinedRoom` / `OnLeftRoom`),
i.e. one matching the first arm of the `process_line` event match? -/
def isRoomLine (line : LogLine) : Bool :=
  match line.event with
  | some Event.OnJoinedRoom => true
  | some Event.OnLeftRoom => true
  | _ => false

/-- A log line carrying a given event (statement-building helper; the
notifier never reads `time`, `log_level` or `body`). -/
def mkLine (ev : Option Event) : LogLine :=
  { time := 0, log_level := .Log, event := ev, body := "" }

/-- The message `to_notification_object` builds for a player-joined
event: title `user_name ++ " joined."`, display timeout 1. -/
def joinedMessage (user_name : String) : MessageObject :=
  ((MessageObjectBuilder.new (user_name ++ " joined.")).set_timeout 1).build

/-- The message `to_notification_object` builds for a player-left event:
title `user_name ++ " left."`, display timeout 1. -/
def leftMessage (user_name : String) : MessageObject :=
  ((MessageObjectBuilder.new (user_name ++ " left.")).set_timeout 1).build

/-! ## The event parser (src/vrc/log.rs)

The Rust parser is driven by five `regex` patterns with leftmost-first
(Perl-style) match semantics.  Each pattern is transliterated into a
total executable matcher on `List Char`; greedy and lazy repetitions are
realised by explicit longest-first / shortest-first backtracking, and
`.` never matches a newline (the crate's default). -/

/-- Strip a literal pattern from the front of a string; `none` when the
string does not start with it. -/
def stripLit : List Char → List Char → Option (List Char)
  | [], s => some s
  | _ :: _, [] => Option.none
  | p :: ps, c :: cs => if c = p then stripLit ps cs else Option.none

/-- Does the string contain the literal pattern as a substring?
(Models an unanchored regex search for a pure literal pattern, as in
`ON_JOINED_ROOM_PATTERN` and `ON_LEFT_ROOM_PATTERN`.) -/
def containsLit (pat : List Char) : List Char → Bool
  | [] => (stripLit pat []).isSome
  | c :: cs => (stripLit pat (c :: cs)).isSome || containsLit pat cs

/-- The character class `[a-z0-9-]` of the `usr_` identifier suffix. -/
def isUsrChar (c : Char) : Bool :=
  ('a' ≤ c ∧ c ≤ 'z') ∨ ('0' ≤ c ∧ c ≤ '9') ∨ c = '-'

/-- Does the string begin with the alternative
`' \(usr_[a-z0-9-]+\)'` of the player-event patterns?  (The `+` is
greedy but its class excludes `')'`, so the match is deterministic.) -/
def usrTail (s : List Char) : Bool :=
  match stripLit (" (usr_".data) s with
  | Option.none => false
  | some rest =>
    match rest.dropWhile isUsrChar with
    | ')' :: _ => decide (rest.takeWhile isUsrChar ≠ [])
    | _ => false

/-- The lazy username capture `(?P<username>.+?)($| \(usr_[a-z0-9-]+\))`
of the player-event patterns, starting at the given string: the shortest
non-empty newline-free prefix whose remainder is either the end of the
haystack (`$`) or a parenthesized `usr_` identifier. -/
def lazyName : List Char → Option (List Char)
  | [] => Option.none
  | c :: cs =>
    if c = '\n' then Option.none
    else if cs.isEmpty then some [c]
    else if usrTail cs then some [c]
    else
      match lazyName cs with
      | some n => some (c :: n)
      | Option.none => Option.none

/-- Unanchored leftmost-first search for `lit(?P<username>.+?)($| \(usr_...\))`
(the `ON_PLAYER_JOINED_PATTERN` / `ON_PLAYER_LEFT_PATTERN` shapes): at
each position try the literal prefix followed by the lazy capture, else
advance one character. -/
def searchPlayerName (lit : List Char) : List Char → Option (List Char)
  | [] => Option.none
  | c :: cs =>
    match stripLit lit (c :: cs) with
    | some tail =>
      match lazyName tail with
      | some n => some n
      | Option.none => searchPlayerName lit cs
    | Option.none => searchPlayerName lit cs

/-- Unanchored leftmost-first search for `lit(?P<username>\S+)`
(the `USER_AUTHENTICATED_PATTERN` shape): after the literal, the greedy
`\S+` is the maximal non-whitespace run, required non-empty. -/
def searchAuthName (lit : List Char) : List Char → Option (List Char)
  | [] => Option.none
  | c :: cs =>
    match stripLit lit (c :: cs) with
    | some tail =>
      let run := tail.takeWhile (fun d => ¬ d.isWhitespace)
      if run.isEmpty then searchAuthName lit cs else some run
    | Option.none => searchAuthName lit cs

/-- `LogLine::parse_body`: the body patterns are tried in the source's
order, first match wins. -/
def parse_body (body : List Char) : Option Event :=
  if containsLit ("[Behaviour] Finished entering world".data) body then
    some Event.OnJoinedRoom
  else
    match searchPlayerName ("[Behaviour] OnPlayerJoined ".data) body with
    | some n => some (Event.OnPlayerJoined n.asString)
    | Option.none =>
      if containsLit ("[Behaviour] OnLeftRoom".data) body then
        some Event.OnLeftRoom
      else
        match searchPlayerName ("[Behaviour] OnPlayerLeft ".data) body with
        | some n => some (Event.OnPlayerLeft n.asString)
        | Option.none =>
          match searchAuthName ("[Behaviour] User Authenticated: ".data) body with
          | some n => some (Event.UserAuthenticated n.asString)
          | Option.none => Option.none

/-- Match a list of character predicates position by position, returning
the consumed characters and the remainder. -/
def matchShape : List (Char → Bool) → List Char → Option (List Char × List Char)
  | [], s => some ([], s)
  | _ :: _, [] => Option.none
  | p :: ps, c :: cs =>
    if p c then (matchShape ps cs).map (fun r => (c :: r.1, r.2)) else Option.none

/-- The 19-character shape of the header capture
`\d{4}.\d{2}.\d{2} \d{2}:\d{2}:\d{2}` (the unescaped `.` matches any
character except newline). -/
def tsShape : List (Char → Bool) :=
  let d := fun c : Char => c.isDigit
  let anyc := fun c : Char => c ≠ '\n'
  [d, d, d, d, anyc, d, d, anyc, d, d,
   (· = ' '), d, d, (· = ':'), d, d, (· = ':'), d, d]

/-- After the level capture, the header pattern continues ` *-  (?P<body>.*)`:
skip the (greedy, here deterministic) run of spaces, require `'-'` and two
spaces, and capture the rest of the line up to a newline as the body. -/
def matchLevelTail (s : List Char) : Option (List Char) :=
  match s.dropWhile (· = ' ') with
  | '-' :: ' ' :: ' ' :: b => some (b.takeWhile (· ≠ '\n'))
  | _ => Option.none

/-- Greedy backtracking for the level capture `[^ ]+`: try the prefix of
`k` non-space characters from longest to shortest, returning the first
whose remainder matches the tail of the header pattern. -/
def levelBacktrack (s : List Char) : Nat → Option (List Char × List Char)
  | 0 => Option.none
  | k + 1 =>
    match matchLevelTail (s.drop (k + 1)) with
    | some body => some (s.take (k + 1), body)
    | Option.none => levelBacktrack s k

/-- Anchored attempt of `LOG_HEADER_PATTERN` at the start of the string,
yielding the `timestamp`, `level`, and `body` captures. -/
def matchHeaderAt (s : List Char) : Option (List Char × List Char × List Char) :=
  match matchShape tsShape s with
  | Option.none => Option.none
  | some (ts, rest) =>
    match rest with
    | ' ' :: afterSp =>
      match levelBacktrack afterSp (afterSp.takeWhile (· ≠ ' ')).length with
      | some (lvl, body) => some (ts, lvl, body)
      | Option.none => Option.none
    | _ => Option.none

/-- Unanchored leftmost search of `LOG_HEADER_PATTERN`
(`Regex::captures`). -/
def matchHeader : List Char → Option (List Char × List Char × List Char)
  | [] => Option.none
  | c :: cs =>
    match matchHeaderAt (c :: cs) with
    | some r => some r
    | Option.none => matchHeader cs

/-- Gregorian leap-year rule, as in chrono's calendar validation. -/
def isLeapYear (y : Nat) : Bool :=
  y % 4 = 0 ∧ (y % 100 ≠ 0 ∨ y % 400 = 0)

/-- Number of days in a month. -/
def daysInMonth (y mo : Nat) : Nat :=
  if mo = 2 then (if isLeapYear y then 29 else 28)
  else if mo = 4 ∨ mo = 6 ∨ mo = 9 ∨ mo = 11 then 30
  else 31

/-- Decimal value of a digit run. -/
def digitsToNat (l : List Char) : Nat :=
  l.foldl (fun a c => a * 10 + (c.toNat - 48)) 0

/-- `NaiveDateTime::parse_from_str(ts, "%Y.%m.%d %H:%M:%S")` on the
19-character capture produced by the header pattern: the two free
separator positions must be literal dots, all numeric fields must be
digits in range (seconds up to 60, chrono's leap-second allowance), and
the date must exist in the proleptic Gregorian calendar. -/
def parseTimestampStr (ts : List Char) : Option NaiveDateTime :=
  match ts with
  | [y1, y2, y3, y4, s1, m1, m2, s2, d1, d2, sp, h1, h2, c1, n1, n2, c2, x1, x2] =>
    if s1 = '.' ∧ s2 = '.' ∧ sp = ' ' ∧ c1 = ':' ∧ c2 = ':' ∧
       ([y1, y2, y3, y4, m1, m2, d1, d2, h1, h2, n1, n2, x1, x2].all Char.isDigit) then
      let y := digitsToNat [y1, y2, y3, y4]
      let mo := digitsToNat [m1, m2]
      let d := digitsToNat [d1, d2]
      let h := digitsToNat [h1, h2]
      let mi := digitsToNat [n1, n2]
      let se := digitsToNat [x1, x2]
      if 1 ≤ mo ∧ mo ≤ 12 ∧ 1 ≤ d ∧ d ≤ daysInMonth y mo ∧
         h ≤ 23 ∧ mi ≤ 59 ∧ se ≤ 60 then
        some ⟨y, mo, d, h, mi, se⟩
      else Option.none
    else Option.none
  | _ => Option.none

/-- The level-token match of `LogLine::from_line`. -/
def parseLevel (lvl : List Char) : Option LogLevel :=
  if lvl = "Debug".data then some LogLevel.Debug
  else if lvl = "Log".data then some LogLevel.Log
  else if lvl = "Warning".data then some LogLevel.Warning
  else if lvl = "Error".data then some LogLevel.Error
  else Option.none

/-- `LogLine::from_line`, with the `Local` timezone's
`from_local_datetime` passed explicitly as `resolve`.  The source's order
is kept: header match, timestamp parse,
`Local.from_local_datetime(..).earliest()?`, level match, body
classification. -/
def LogLine.from_line (resolve : NaiveDateTime → LocalResult) (line : String) :
    Option LogLine :=
  match matchHeader line.data with
  | Option.none => Option.none
  | some (ts, lvl, body) =>
    match parseTimestampStr ts with
    | Option.none => Option.none
    | some ndt =>
      match (resolve ndt).earliest with
      | Option.none => Option.none
      | some t =>
        match parseLevel lvl with
        | Option.none => Option.none
        | some level =>
          some { time := t, log_level := level, event := parse_body body,
                 body := body.asString }

/-! ## The continuous file reader (src/reader.rs)

File contents are `List Char`; the cursor `read_bytes` counts UTF-8
bytes, as in the source (`len` returned by `read_line` is a byte
count). -/

/-- UTF-8 byte length of a character list. -/
def byteLen : List Char → Nat
  | [] => 0
  | c :: cs => c.utf8Size + byteLen cs

/-- `seek(SeekFrom::Start(o))` followed by reading: the unread remainder
of the content after `o` bytes.  All offsets the reader ever stores are
character boundaries (sums of whole-line byte lengths). -/
def dropBytes : Nat → List Char → List Char
  | _, [] => []
  | o, c :: cs => if o = 0 then c :: cs else dropBytes (o - c.utf8Size) cs

/-- `str::trim_end`: strip trailing whitespace. -/
def trimEnd (l : List Char) : List Char :=
  (l.reverse.dropWhile Char.isWhitespace).reverse

/-- `BufRead::read_line`: one chunk up to and including a newline (or up
to end of stream), plus the remainder. -/
def readLineChunk : List Char → List Char × List Char
  | [] => ([], [])
  | c :: cs =>
    if c = '\n' then ([c], cs)
    else
      let r := readLineChunk cs
      (c :: r.1, r.2)

/-- The loop body of `ContinuousFileReader::read_appended_lines`: read
chunks until `read_line` returns length 0, after each chunk advancing the
offset by the chunk's byte length and delivering `buf.trim_end()` to the
callback.  Returns the delivered lines and the final offset. -/
def readAppendedAux (s : List Char) (ofs : Nat) : List String × Nat :=
  match h : readLineChunk s with
  | ([], _) => ([], ofs)
  | (c :: l, r) =>
    let t := readAppendedAux r (ofs + byteLen (c :: l))
    ((trimEnd (c :: l)).asString :: t.1, t.2)
termination_by s.length
decreasing_by
  have key : ∀ u : List Char, (readLineChunk u).1 ++ (readLineChunk u).2 = u := by
    intro u
    induction u with
    | nil => rfl
    | cons d ds ih =>
      by_cases hd : d = '\n' <;> simp [readLineChunk, hd, ih]
  have hs := key s
  rw [h] at hs
  simp only [← hs, List.length_append, List.length_cons]
  omega

/-- `ContinuousFileReader` — `(file_path, read_bytes)`. -/
structure ContinuousFileReader where
  file_path : String
  read_bytes : Nat
deriving DecidableEq, Repr

/-- `ContinuousFileReader::new`: cursor at byte offset 0. -/
def ContinuousFileReader.new (file_path : String) : ContinuousFileReader :=
  { file_path := file_path, read_bytes := 0 }

/-- `ContinuousFileReader::read_appended_lines` on an already-opened
content snapshot: seek to `read_bytes`, drain whole lines, return the
updated reader and the delivered (trimmed) lines. -/
def ContinuousFileReader.read_appended_lines (rd : ContinuousFileReader)
    (content : List Char) : ContinuousFileReader × List String :=
  let t := readAppendedAux (dropBytes rd.read_bytes content) rd.read_bytes
  ({ rd with read_bytes := t.2 }, t.1)

/-! ## The log file selector (src/vrc/log.rs: get_log_entries,
src/reader.rs: find_latest_log_path) -/

/-- One `fs::DirEntry` as observed by the selector: its file name, its
path, whether `file_type().is_file()`, and the `metadata().modified()`
timestamp (`Option.none` models a failing metadata or modified-time
read, which `find_latest_log_path` skips). -/
structure DirEntry where
  name : String
  path : String
  isFile : Bool
  mtime : Option Nat
deriving DecidableEq, Repr

/-- `LOG_FILE_NAME_PATTERN`, the regex `^output_log_.*\.txt$`: the name
is the literal prefix, then any newline-free middle, then the literal
`.txt` ending the name. -/
def matchesLogFileName (name : List Char) : Bool :=
  match stripLit ("output_log_".data) name with
  | Option.none => false
  | some rest =>
    4 ≤ rest.length ∧ rest.drop (rest.length - 4) = ".txt".data ∧
      '\n' ∉ rest.take (rest.length - 4)

/-- `vrc::log::get_log_entries` on a successfully listed directory: keep
exactly the regular files whose names match `LOG_FILE_NAME_PATTERN`. -/
def get_log_entries (entries : List DirEntry) : List DirEntry :=
  entries.filter (fun e => e.isFile && matchesLogFileName e.name.data)

/-- Rust's `Iterator::max_by` with comparator `modified_a.cmp(modified_b)`:
fold keeping the accumulator only when strictly greater, so the last of
several maxima wins. -/
def maxByMtime : List (DirEntry × Nat) → Option (DirEntry × Nat)
  | [] => Option.none
  | x :: xs => some (xs.foldl (fun a b => if b.2 < a.2 then a else b) x)

/-- `reader::find_latest_log_path`: pair each entry with its modified
time (skipping entries whose metadata cannot be read), take the maximum,
return its path. -/
def find_latest_log_path (log_entries : List DirEntry) : Option String :=
  let entries := log_entries.filterMap (fun e => e.mtime.map (fun m => (e, m)))
  match maxByMtime entries with
  | some em => some em.1.path
  | Option.none => Option.none

/-! ## The log processor (src/reader.rs: VrChatLogProcessor) -/

/-- `io::ErrorKind`, restricted to what the model distinguishes. -/
inductive IOErrorKind where
  | notFound
  | permissionDenied
  | other
deriving DecidableEq, Repr

/-- The state of `VrChatLogProcessor`: the optional tracked reader.  The
`log_dir` and the borrowed line processor are modelled as the per-call
directory listing and the returned batch of `(LogLine, is_first)`
deliveries. -/
structure VrChatLogProcessor where
  reader : Option ContinuousFileReader
deriving DecidableEq, Repr

/-- `VrChatLogProcessor::process_log`.  Inputs per invocation: `resolve`
(the local timezone), `fsys` (opening a path yields its content snapshot
or an IO error), and `entries` (the directory listing that
`get_log_entries` filters).  Output: the new processor state, and either
the IO error or the batch of parsed lines each paired with the batch's
`is_first` flag, exactly as the source forwards them to
`processor.process_line`. -/
def process_log (resolve : NaiveDateTime → LocalResult)
    (fsys : String → Except IOErrorKind (List Char))
    (entries : List DirEntry) (st : VrChatLogProcessor) :
    VrChatLogProcessor × Except IOErrorKind (List (LogLine × Bool)) :=
  match find_latest_log_path (get_log_entries entries) with
  | Option.none => (st, .error .notFound)
  | some latest =>
    let stepped : VrChatLogProcessor × Bool :=
      match st.reader with
      | some current =>
        if current.file_path ≠ latest then
          ({ reader := some (ContinuousFileReader.new latest) }, false)
        else (st, false)
      | Option.none => ({ reader := some (ContinuousFileReader.new latest) }, true)
    match stepped.1.reader with
    | some monitor =>
      match fsys monitor.file_path with
      | .error e => (stepped.1, .error e)
      | .ok content =>
        let t := monitor.read_appended_lines content
        ({ reader := some t.1 },
         .ok (t.2.filterMap (fun l =>
           (LogLine.from_line resolve l).map (fun ll => (ll, stepped.2)))))
    | Option.none => (stepped.1, .ok [])

/-! ## Notifier lemmas -/

/-- Processing a non-room line with `is_first = false` queries
`to_notification_object` on the unchanged state. -/
theorem process_line_not_room (s : VrcToXsOverlayNotifier) (now : Int) (line : LogLine)
    (h : isRoomLine line = false) :
    process_line s now line false = (s, s.to_notification_object now line) := by
  cases hev : line.event with
  | none => simp [process_line, hev]
  | some ev => cases ev <;> simp_all [process_line, isRoomLine, hev]

/-- Processing a room line with `is_first = false` resets the window to
`now + 5` before querying `to_notification_object`. -/
theorem process_line_room (s : VrcToXsOverlayNotifier) (now : Int) (line : LogLine)
    (h : isRoomLine line = true) :
    process_line s now line false =
      (⟨some (now + 5)⟩,
       VrcToXsOverlayNotifier.to_notification_object ⟨some (now + 5)⟩ now line) := by
  cases hev : line.event with
  | none => simp_all [isRoomLine, hev]
  | some ev => cases ev <;> simp_all [process_line, isRoomLine, hev]

/-- Inside an active suppression window nothing is built. -/
theorem to_notification_object_of_window (s : VrcToXsOverlayNotifier) (now ns : Int)
    (line : LogLine) (hns : s.notifiable_since = some ns) (hlt : now < ns) :
    s.to_notification_object now line = Option.none := by
  simp [VrcToXsOverlayNotifier.to_notification_object, VrcToXsOverlayNotifier.windowActive,
    hns, hlt]

/-- Outside any active window a player-joined line builds its popup. -/
theorem to_notification_object_join (s : VrcToXsOverlayNotifier) (now : Int)
    (line : LogLine) (u : String) (hw : s.windowActive now = false)
    (hev : line.event = some (Event.OnPlayerJoined u)) :
    s.to_notification_object now line = some (joinedMessage u) := by
  simp [VrcToXsOverlayNotifier.to_notification_object, hw, hev, joinedMessage]

/-- Outside any active window a player-left line builds its popup. -/
theorem to_notification_object_left (s : VrcToXsOverlayNotifier) (now : Int)
    (line : LogLine) (u : String) (hw : s.windowActive now = false)
    (hev : line.event = some (Event.OnPlayerLeft u)) :
    s.to_notification_object now line = some (leftMessage u) := by
  simp [VrcToXsOverlayNotifier.to_notification_object, hw, hev, leftMessage]

/-- A step of `processTrace`. -/
theorem processTrace_cons (s : VrcToXsOverlayNotifier) (now : Int) (line : LogLine)
    (isf : Bool) (rest : List TraceEntry) :
    processTrace s ((now, line, isf) :: rest) =
      ((processTrace (process_line s now line isf).1 rest).1,
       (process_line s now line isf).2 ::
         (processTrace (process_line s now line isf).1 rest).2) := rfl

/-- Processing one line can only move an existing window later, never
below a bound that also bounds `now + 5`. -/
theorem process_line_window_persists (B : Int) (s : VrcToXsOverlayNotifier) (now : Int)
    (line : LogLine) (isf : Bool) (h : ∃ ns, s.notifiable_since = some ns ∧ B ≤ ns)
    (hle : B ≤ now + 5) :
    ∃ ns, ((process_line s now line isf).1).notifiable_since = some ns ∧ B ≤ ns := by
  cases isf with
  | true => exact h
  | false =>
    cases hr : isRoomLine line with
    | true => exact ⟨now + 5, by rw [process_line_room s now line hr], hle⟩
    | false => rw [process_line_not_room s now line hr]; exact h

/-- A non-room line processed while a window covers its clock reading
emits nothing. -/
theorem process_line_out_none_of_window (s : VrcToXsOverlayNotifier) (now : Int)
    (line : LogLine) (isf : Bool) (hnr : isRoomLine line = false)
    (h : ∃ ns, s.notifiable_since = some ns ∧ now < ns) :
    (process_line s now line isf).2 = Option.none := by
  cases isf with
  | true => rfl
  | false =>
    obtain ⟨ns, hns, hlt⟩ := h
    rw [process_line_not_room s now line hnr]
    exact to_notification_object_of_window s now ns line hns hlt

/-- Along a trace whose clock readings keep `B ≤ now + 5`, a window
bounded below by `B` stays in force, so every player-joined line read at
a clock value below `B` produces no notification. -/
theorem trace_window_suppresses (B : Int) (es : List TraceEntry) :
    ∀ s : VrcToXsOverlayNotifier, (∃ ns, s.notifiable_since = some ns ∧ B ≤ ns) →
    (∀ e ∈ es, B ≤ e.1 + 5) →
    ∀ (j : Nat) (tj : Int) (l : LogLine) (b : Bool) (u : String),
      es[j]? = some (tj, l, b) → l.event = some (Event.OnPlayerJoined u) → tj < B →
      ((processTrace s es).2)[j]? = some Option.none := by
  induction es with
  | nil => intro s _ _ j tj l b u hj; simp at hj
  | cons e rest ih =>
    intro s hw hmono j tj l b u hj hev hlt
    cases j with
    | zero =>
      have he : e = (tj, l, b) := by simpa using hj
      subst he
      rw [processTrace_cons]
      have hnr : isRoomLine l = false := by simp [isRoomLine, hev]
      simp only [List.getElem?_cons_zero, Option.some.injEq]
      exact process_line_out_none_of_window s tj l b hnr
        (by obtain ⟨ns, hns, hB⟩ := hw; exact ⟨ns, hns, lt_of_lt_of_le hlt hB⟩)
    | succ k =>
      obtain ⟨tn, ln, bn⟩ := e
      rw [processTrace_cons]
      simp only [List.getElem?_cons_succ] at hj ⊢
      exact ih (process_line s tn ln bn).1
        (process_line_window_persists B s tn ln bn hw
          (hmono (tn, ln, bn) (List.mem_cons_self _ _)))
        (fun x hx => hmono x (List.mem_cons_of_mem _ hx))
        k tj l b u hj hev hlt

/-- Along a trace containing no room-transition line processed with
`is_first = false`, the window stays exactly where it was, so once it has
expired every player-joined line notifies. -/
theorem trace_window_expired_notifies (ns : Int) (es : List TraceEntry) :
    ∀ s : VrcToXsOverlayNotifier, s.notifiable_since = some ns →
    (∀ e ∈ es, isRoomLine e.2.1 = false ∨ e.2.2 = true) →
    ∀ (j : Nat) (tj : Int) (l : LogLine) (u : String),
      es[j]? = some (tj, l, false) → l.event = some (Event.OnPlayerJoined u) → ns ≤ tj →
      ((processTrace s es).2)[j]? = some (some (joinedMessage u)) := by
  induction es with
  | nil => intro s _ _ j tj l u hj; simp at hj
  | cons e rest ih =>
    intro s hns hnr j tj l u hj hev hge
    cases j with
    | zero =>
      have he : e = (tj, l, false) := by simpa using hj
      subst he
      rw [processTrace_cons]
      have hlr : isRoomLine l = false := by simp [isRoomLine, hev]
      simp only [List.getElem?_cons_zero, Option.some.injEq]
      rw [process_line_not_room s tj l hlr]
      refine to_notification_object_join s tj l u ?_ hev
      simp [VrcToXsOverlayNotifier.windowActive, hns, not_lt.mpr hge]
    | succ k =>
      obtain ⟨tn, ln, bn⟩ := e
      rw [processTrace_cons]
      simp only [List.getElem?_cons_succ] at hj ⊢
      have hstep : (process_line s tn ln bn).1 = s := by
        rcases hnr (tn, ln, bn) (List.mem_cons_self _ _) with h | h
        · cases bn with
          | true => rfl
          | false => rw [process_line_not_room s tn ln h]
        · simp only at h; subst h; rfl
      rw [hstep]
      exact ih s hns (fun x hx => hnr x (List.mem_cons_of_mem _ hx)) k tj l u hj hev hge

/-! ## Claims about the notifier -/

/-- C4: for every line processed with `is_first = true`, `process_line`
returns immediately: no notification is emitted and the suppressor state
is untouched, whatever the line's event and the current state. -/
theorem first_read_never_notifies (s : VrcToXsOverlayNotifier) (now : Int)
    (line : LogLine) : process_line s now line true = (s, Option.none) := rfl

/-- C10: a line processed with `is_first = false` whose event is neither
`OnJoinedRoom` nor `OnLeftRoom` leaves the suppressor state (hence
`notifiable_since`) unchanged; conversely, whenever `process_line`
changes the state, the line was a room-transition line processed with
`is_first = false`. -/
theorem non_room_lines_preserve_notifiable_since :
    (∀ (s : VrcToXsOverlayNotifier) (now : Int) (line : LogLine),
      line.event ≠ some Event.OnJoinedRoom → line.event ≠ some Event.OnLeftRoom →
      (process_line s now line false).1 = s) ∧
    (∀ (s : VrcToXsOverlayNotifier) (now : Int) (line : LogLine) (b : Bool),
      (process_line s now line b).1 ≠ s →
      (line.event = some Event.OnJoinedRoom ∨ line.event = some Event.OnLeftRoom) ∧
        b = false) := by
  constructor
  · intro s now line h1 h2
    have hnr : isRoomLine line = false := by
      cases hev : line.event with
      | none => simp [isRoomLine, hev]
      | some ev => cases ev <;> simp_all [isRoomLine, hev]
    rw [process_line_not_room s now line hnr]
  · intro s now line b hne
    cases b with
    | true => exact absurd rfl hne
    | false =>
      refine ⟨?_, rfl⟩
      by_contra hcon
      push_neg at hcon
      obtain ⟨h1, h2⟩ := hcon
      have hnr : isRoomLine line = false := by
        cases hev : line.event with
        | none => simp [isRoomLine, hev]
        | some ev => cases ev <;> simp_all [isRoomLine, hev]
      exact hne (by rw [process_line_not_room s now line hnr])

/-- Witness for C10 at a concrete input: a `PlayerJoined` line processed
with an open window leaves `notifiable_since` untouched. -/
theorem non_room_lines_preserve_notifiable_since_witness :
    (process_line ⟨some 3⟩ 0 (mkLine (some (Event.OnPlayerJoined "X"))) false).1 =
      (⟨some 3⟩ : VrcToXsOverlayNotifier) :=
  non_room_lines_preserve_notifiable_since.1 ⟨some 3⟩ 0
    (mkLine (some (Event.OnPlayerJoined "X"))) (by decide) (by decide)

/-- C1 (counterexample): the suppressor keeps no record of
`UserAuthenticated` identities.  After `SelfAuthenticated "Alice"` is
processed in the initial state, a `PlayerJoined "Alice"` line (same
`user_name` as the most recent authentication, `is_first = false`, no
active window) does emit a notification — titled "Alice joined." —
refuting the claim that such a line is never notified. -/
theorem self_user_notified_counterexample :
    (processTrace ⟨Option.none⟩
      [(0, mkLine (some (Event.UserAuthenticated "Alice")), false),
       (1, mkLine (some (Event.OnPlayerJoined "Alice")), false)]).2 =
      [Option.none, some (joinedMessage "Alice")] ∧
    (joinedMessage "Alice").title = "Alice joined." :=
  ⟨rfl, rfl⟩

/-- C1 (amended): the notifier performs no self-identity filtering.
Processing a `UserAuthenticated` line never notifies and leaves the
state unchanged (so nothing about the authenticated identity is
retained), and a `PlayerJoined` or `PlayerLeft` line is notified
outside an active suppression window regardless of any previously
processed `UserAuthenticated` user name — including the self user's
own name. -/
theorem no_self_identity_suppression :
    (∀ (s : VrcToXsOverlayNotifier) (now : Int) (line : LogLine) (u : String) (b : Bool),
      line.event = some (Event.UserAuthenticated u) →
      process_line s now line b = (s, Option.none)) ∧
    (∀ (s : VrcToXsOverlayNotifier) (now : Int) (line : LogLine) (u : String),
      line.event = some (Event.OnPlayerJoined u) → s.windowActive now = false →
      (process_line s now line false).2 = some (joinedMessage u)) ∧
    (∀ (s : VrcToXsOverlayNotifier) (now : Int) (line : LogLine) (u : String),
      line.event = some (Event.OnPlayerLeft u) → s.windowActive now = false →
      (process_line s now line false).2 = some (leftMessage u)) := by
  refine ⟨?_, ?_, ?_⟩
  · intro s now line u b hev
    cases b with
    | true => rfl
    | false =>
      have hnr : isRoomLine line = false := by simp [isRoomLine, hev]
      rw [process_line_not_room s now line hnr]
      cases hw : s.windowActive now <;>
        simp [VrcToXsOverlayNotifier.to_notification_object, hw, hev]
  · intro s now line u hev hw
    rw [process_line_not_room s now line (by simp [isRoomLine, hev])]
    exact to_notification_object_join s now line u hw hev
  · intro s now line u hev hw
    rw [process_line_not_room s now line (by simp [isRoomLine, hev])]
    exact to_notification_object_left s now line u hw hev

/-- Witness for the amended C1 at concrete inputs: authenticating
"Alice" changes nothing and emits nothing; her own later join line and
her own later leave line are both notified. -/
theorem no_self_identity_suppression_witness :
    process_line ⟨Option.none⟩ 0 (mkLine (some (Event.UserAuthenticated "Alice"))) false =
      (⟨Option.none⟩, Option.none) ∧
    (process_line ⟨Option.none⟩ 1 (mkLine (some (Event.OnPlayerJoined "Alice"))) false).2 =
      some (joinedMessage "Alice") ∧
    (process_line ⟨Option.none⟩ 2 (mkLine (some (Event.OnPlayerLeft "Alice"))) false).2 =
      some (leftMessage "Alice") :=
  ⟨no_self_identity_suppression.1 ⟨Option.none⟩ 0
      (mkLine (some (Event.UserAuthenticated "Alice"))) "Alice" false rfl,
   no_self_identity_suppression.2.1 ⟨Option.none⟩ 1
      (mkLine (some (Event.OnPlayerJoined "Alice"))) "Alice" rfl rfl,
   no_self_identity_suppression.2.2 ⟨Option.none⟩ 2
      (mkLine (some (Event.OnPlayerLeft "Alice"))) "Alice" rfl rfl⟩

/-- C2: let a `RoomJoined` line be processed at real time `t` with
`is_first = false`.  (1) As long as the clock never reads below `t`,
every later `PlayerJoined` line processed at a clock reading strictly
before `t + 5` (the 5-second grace period) emits no notification —
regardless of its flag, and even if further room transitions occur.
(2) In the scenario where no further room-transition line is processed
live (the claim's single-room-event scenario), a `PlayerJoined "Bob"`
line processed with `is_first = false` at a reading at or after `t + 5`
emits exactly one notification, titled "Bob joined.". -/
theorem grace_period_suppression_and_expiry
    (s : VrcToXsOverlayNotifier) (t : Int) (roomLine : LogLine)
    (hroom : roomLine.event = some Event.OnJoinedRoom) (post : List TraceEntry)
    (hclock : ∀ e ∈ post, t ≤ e.1) :
    (∀ (j : Nat) (tj : Int) (l : LogLine) (b : Bool) (u : String),
      post[j]? = some (tj, l, b) → l.event = some (Event.OnPlayerJoined u) →
      tj < t + 5 →
      ((processTrace (process_line s t roomLine false).1 post).2)[j]? =
        some Option.none) ∧
    ((∀ e ∈ post, isRoomLine e.2.1 = false ∨ e.2.2 = true) →
      ∀ (j : Nat) (tj : Int) (l : LogLine),
        post[j]? = some (tj, l, false) →
        l.event = some (Event.OnPlayerJoined "Bob") → t + 5 ≤ tj →
        ∃ m, ((processTrace (process_line s t roomLine false).1 post).2)[j]? =
          some (some m) ∧ m.title = "Bob joined.") := by
  have hstate : (process_line s t roomLine false).1 = ⟨some (t + 5)⟩ := by
    rw [process_line_room s t roomLine (by simp [isRoomLine, hroom])]
  constructor
  · intro j tj l b u hj hev hlt
    exact trace_window_suppresses (t + 5) post (process_line s t roomLine false).1
      (⟨t + 5, by rw [hstate], le_refl _⟩)
      (fun e he => by have := hclock e he; omega)
      j tj l b u hj hev hlt
  · intro hnr j tj l hj hev hge
    refine ⟨joinedMessage "Bob", ?_, rfl⟩
    exact trace_window_expired_notifies (t + 5) post (process_line s t roomLine false).1
      (by rw [hstate]) hnr j tj l "Bob" hj hev hge

/-- Witness for C2 at concrete inputs: from the initial state, a
`RoomJoined` at time 0 makes `PlayerJoined "Carol"` at time 1 silent and
`PlayerJoined "Bob"` at time 6 notified as "Bob joined.". -/
theorem grace_period_suppression_and_expiry_witness :
    ((processTrace
        (process_line ⟨Option.none⟩ 0 (mkLine (some Event.OnJoinedRoom)) false).1
        [(1, mkLine (some (Event.OnPlayerJoined "Carol")), false),
         (6, mkLine (some (Event.OnPlayerJoined "Bob")), false)]).2)[0]? =
      some Option.none ∧
    ∃ m, ((processTrace
        (process_line ⟨Option.none⟩ 0 (mkLine (some Event.OnJoinedRoom)) false).1
        [(1, mkLine (some (Event.OnPlayerJoined "Carol")), false),
         (6, mkLine (some (Event.OnPlayerJoined "Bob")), false)]).2)[1]? =
      some (some m) ∧ m.title = "Bob joined." := by
  have h := grace_period_suppression_and_expiry ⟨Option.none⟩ 0
    (mkLine (some Event.OnJoinedRoom)) rfl
    [(1, mkLine (some (Event.OnPlayerJoined "Carol")), false),
     (6, mkLine (some (Event.OnPlayerJoined "Bob")), false)]
    (by intro e he; fin_cases he <;> decide)
  exact ⟨h.1 0 1 (mkLine (some (Event.OnPlayerJoined "Carol"))) false "Carol" rfl rfl
      (by decide),
    h.2 (by intro e he; fin_cases he <;> simp [isRoomLine, mkLine])
      1 6 (mkLine (some (Event.OnPlayerJoined "Bob"))) rfl rfl (by decide)⟩

/-- C3: the end-to-end scenario.  Feeding the notifier (initial state,
`is_first = false` throughout) `SelfAuthenticated "Alice"` at time 0,
`RoomJoined` at time 0, `PlayerJoined "Alice"` at time 1 (within the
5-second grace period) and `PlayerJoined "Bob"` at time 6 (6 seconds
after the room join) emits nothing for the first three lines and exactly
one notification, for Bob's line, titled "Bob joined.". -/
theorem end_to_end_scenario :
    processTrace ⟨Option.none⟩
      [(0, mkLine (some (Event.UserAuthenticated "Alice")), false),
       (0, mkLine (some Event.OnJoinedRoom), false),
       (1, mkLine (some (Event.OnPlayerJoined "Alice")), false),
       (6, mkLine (some (Event.OnPlayerJoined "Bob")), false)] =
      (⟨some 5⟩,
       [Option.none, Option.none, Option.none, some (joinedMessage "Bob")]) ∧
    (joinedMessage "Bob").title = "Bob joined." :=
  ⟨rfl, rfl⟩

/-- C9: a failing sink never perturbs processing.  For every send oracle
(including ones that always fail with a JSON-encoding or transport
error), the suppressor state after a batch of lines equals the state
under an always-succeeding oracle — and equals the state of the pure
model — and every line of the batch is still processed (one send-attempt
slot per input line). -/
theorem sink_failure_never_perturbs
    (send : MessageObject → Except SendMessageError Unit)
    (s : VrcToXsOverlayNotifier) (es : List TraceEntry) :
    (processTraceSend send s es).1 = (processTraceSend (fun _ => Except.ok ()) s es).1 ∧
    (processTraceSend send s es).1 = (processTrace s es).1 ∧
    (processTraceSend send s es).2.length = es.length := by
  induction es generalizing s with
  | nil => exact ⟨rfl, rfl, rfl⟩
  | cons e rest ih =>
    obtain ⟨tn, ln, bn⟩ := e
    have hs : ∀ g : MessageObject → Except SendMessageError Unit,
        (process_line_send g s tn ln bn).1 = (process_line s tn ln bn).1 :=
      fun g => rfl
    refine ⟨?_, ?_, ?_⟩
    · simp only [processTraceSend, hs]
      exact (ih (process_line s tn ln bn).1).1
    · simp only [processTraceSend, processTrace, hs]
      exact (ih (process_line s tn ln bn).1).2.1
    · simp only [processTraceSend, List.length_cons]
      exact congrArg Nat.succ (ih (process_line s tn ln bn).1).2.2

/-! ## Reader lemmas -/

/-- `readLineChunk` splits the stream: consumed chunk plus remainder. -/
theorem readLineChunk_append (s : List Char) :
    (readLineChunk s).1 ++ (readLineChunk s).2 = s := by
  induction s with
  | nil => rfl
  | cons c cs ih =>
    by_cases h : c = '\n' <;> simp [readLineChunk, h, ih]

/-- An empty consumed chunk means the stream was empty. -/
theorem readLineChunk_eq_nil (s r : List Char) (h : readLineChunk s = ([], r)) :
    s = [] := by
  cases s with
  | nil => rfl
  | cons c cs =>
    by_cases hc : c = '\n' <;> simp [readLineChunk, hc] at h

/-- `byteLen` is additive over append. -/
theorem byteLen_append (a b : List Char) :
    byteLen (a ++ b) = byteLen a + byteLen b := by
  induction a with
  | nil => simp [byteLen]
  | cons c cs ih => simp [byteLen, ih]; omega

/-- Equation of `readAppendedAux` in the end-of-stream case. -/
theorem readAppendedAux_of_chunk_nil (s : List Char) (ofs : Nat) (r : List Char)
    (h : readLineChunk s = ([], r)) : readAppendedAux s ofs = ([], ofs) := by
  conv_lhs => unfold readAppendedAux
  split
  · rfl
  · next c l r' h' => rw [h] at h'; cases h'

/-- Equation of `readAppendedAux` in the line-read case. -/
theorem readAppendedAux_of_chunk_cons (s : List Char) (ofs : Nat) (c : Char)
    (l r : List Char) (h : readLineChunk s = (c :: l, r)) :
    readAppendedAux s ofs =
      ((trimEnd (c :: l)).asString :: (readAppendedAux r (ofs + byteLen (c :: l))).1,
       (readAppendedAux r (ofs + byteLen (c :: l))).2) := by
  conv_lhs => unfold readAppendedAux
  split
  · next r' h' => rw [h] at h'; cases h'
  · next c' l' r' h' =>
    rw [h] at h'
    injection h' with h1 h2
    injection h1 with h3 h4
    subst h3; subst h4; subst h2
    rfl

/-- The final offset after draining equals the starting offset plus the
byte length of everything read. -/
theorem readAppendedAux_snd (s : List Char) (ofs : Nat) :
    (readAppendedAux s ofs).2 = ofs + byteLen s := by
  induction s, ofs using readAppendedAux.induct with
  | case1 s ofs r h =>
    have hs : s = [] := readLineChunk_eq_nil s r h
    subst hs
    rw [readAppendedAux_of_chunk_nil _ _ _ h]
    simp [byteLen]
  | case2 s ofs c l r h ih =>
    rw [readAppendedAux_of_chunk_cons _ _ _ _ _ h]
    have hsplit := readLineChunk_append s
    rw [h] at hsplit
    simp only at hsplit ih ⊢
    rw [ih, ← hsplit, byteLen_append]
    omega

/-- Dropping the byte length of a prefix of whole characters drops
exactly those characters. -/
theorem dropBytes_take (k : Nat) (l : List Char) :
    dropBytes (byteLen (l.take k)) l = l.drop k := by
  induction l generalizing k with
  | nil => simp [dropBytes]
  | cons c cs ih =>
    cases k with
    | zero => simp [byteLen, dropBytes]
    | succ k =>
      have hpos := Char.utf8Size_pos c
      simp only [List.take_succ_cons, List.drop_succ_cons, byteLen]
      rw [dropBytes, if_neg (by omega)]
      have harith : c.utf8Size + byteLen (cs.take k) - c.utf8Size = byteLen (cs.take k) := by
        omega
      rw [harith]
      exact ih k

/-- Seeking at or past the end of the content leaves nothing to read. -/
theorem dropBytes_of_le (o : Nat) (l : List Char) (h : byteLen l ≤ o) :
    dropBytes o l = [] := by
  induction l generalizing o with
  | nil => rfl
  | cons c cs ih =>
    have hpos := Char.utf8Size_pos c
    simp only [byteLen] at h
    rw [dropBytes, if_neg (by omega)]
    exact ih _ (by omega)

/-- A reader whose cursor is at or past the end of the content reads
nothing and is returned unchanged. -/
theorem read_appended_lines_noop (rd : ContinuousFileReader) (content : List Char)
    (h : byteLen content ≤ rd.read_bytes) :
    rd.read_appended_lines content = (rd, []) := by
  unfold ContinuousFileReader.read_appended_lines
  rw [dropBytes_of_le _ _ h, readAppendedAux_of_chunk_nil [] _ [] rfl]

/-- C6: idempotence under no growth.  Starting from any cursor position
on a character boundary (every reachable cursor is: offsets only ever
advance by whole-line byte lengths from 0), one `read_appended_lines`
call drains the file; a second call on content that has not grown
(byte length at most the first call's) invokes the callback zero times
— it delivers the empty line list — and leaves `read_bytes` (and the
whole reader) unchanged. -/
theorem read_appended_lines_idempotent (content content' : List Char)
    (rd : ContinuousFileReader) (k : Nat)
    (hb : rd.read_bytes = byteLen (content.take k))
    (hng : byteLen content' ≤ byteLen content) :
    (rd.read_appended_lines content).1.read_appended_lines content' =
      ((rd.read_appended_lines content).1, []) := by
  have h1 : (rd.read_appended_lines content).1.read_bytes = byteLen content := by
    show (readAppendedAux (dropBytes rd.read_bytes content) rd.read_bytes).2 = _
    rw [hb, dropBytes_take, readAppendedAux_snd, ← byteLen_append,
      List.take_append_drop]
  exact read_appended_lines_noop _ content' (h1 ▸ hng)

/-- Witness for C6 at a concrete input: reading "ab\ncd\n" twice from a
fresh reader delivers nothing on the second call and keeps the cursor. -/
theorem read_appended_lines_idempotent_witness :
    ((⟨"log", 0⟩ : ContinuousFileReader).read_appended_lines
        ("ab\ncd\n".data)).1.read_appended_lines ("ab\ncd\n".data) =
      (((⟨"log", 0⟩ : ContinuousFileReader).read_appended_lines ("ab\ncd\n".data)).1,
       []) :=
  read_appended_lines_idempotent ("ab\ncd\n".data) ("ab\ncd\n".data) ⟨"log", 0⟩ 0
    rfl (le_refl _)

/-! ## Selector lemmas -/

/-- The `max_by` fold stays inside the candidate list. -/
theorem maxByMtime_fold_mem (xs : List (DirEntry × Nat)) :
    ∀ x : DirEntry × Nat,
      xs.foldl (fun a b => if b.2 < a.2 then a else b) x ∈ x :: xs := by
  induction xs with
  | nil => intro x; exact List.mem_singleton.mpr rfl
  | cons y ys ih =>
    intro x
    simp only [List.foldl_cons]
    rcases List.mem_cons.mp (ih (if y.2 < x.2 then x else y)) with h | h
    · rw [h]
      by_cases hxy : y.2 < x.2 <;> simp [hxy]
    · exact List.mem_cons_of_mem _ (List.mem_cons_of_mem _ h)

/-- The `max_by` fold dominates every candidate's modified time. -/
theorem maxByMtime_fold_ge (xs : List (DirEntry × Nat)) :
    ∀ x : DirEntry × Nat, ∀ y ∈ x :: xs,
      y.2 ≤ (xs.foldl (fun a b => if b.2 < a.2 then a else b) x).2 := by
  induction xs with
  | nil =>
    intro x y hy
    rw [List.mem_singleton.mp hy]
    exact le_refl _
  | cons z zs ih =>
    intro x y hy
    simp only [List.foldl_cons]
    have hstep : x.2 ≤ (if z.2 < x.2 then x else z).2 ∧
        z.2 ≤ (if z.2 < x.2 then x else z).2 := by
      by_cases hzx : z.2 < x.2 <;> simp [hzx] <;> omega
    rcases List.mem_cons.mp hy with h | h
    · subst h
      exact le_trans hstep.1
        (ih _ _ (List.mem_cons_self _ _))
    · rcases List.mem_cons.mp h with h2 | h2
      · subst h2
        exact le_trans hstep.2 (ih _ _ (List.mem_cons_self _ _))
      · exact ih _ _ (List.mem_cons_of_mem _ h2)

/-- Membership in the mtime-annotated candidate list. -/
theorem mem_mtime_candidates (le : List DirEntry) (p : DirEntry × Nat) :
    p ∈ le.filterMap (fun e => e.mtime.map (fun m => (e, m))) ↔
      p.1 ∈ le ∧ p.1.mtime = some p.2 := by
  obtain ⟨e, m⟩ := p
  simp only [List.mem_filterMap, Option.map_eq_some']
  constructor
  · rintro ⟨a, ha, ma, hma, heq⟩
    obtain ⟨h1, h2⟩ := Prod.mk.injEq .. ▸ heq
    exact ⟨h1 ▸ ha, by rw [← h1, hma, h2]⟩
  · rintro ⟨he, hm⟩
    exact ⟨e, he, m, hm, rfl⟩

/-- C7: the log-file selector.  (1) `get_log_entries` keeps exactly the
regular files whose names match `^output_log_.*\.txt$`.  (2) When the
matching candidates are non-empty and each one's modified time is
readable, `find_latest_log_path` returns the path of a candidate whose
modified time is maximal among all candidates.  (3) With zero matching
candidates it returns nothing, and `process_log` then fails with a
not-found error, leaving its state unchanged (no crash). -/
theorem log_selector_contract :
    (∀ (entries : List DirEntry) (e : DirEntry),
      e ∈ get_log_entries entries ↔
        e ∈ entries ∧ e.isFile = true ∧ matchesLogFileName e.name.data = true) ∧
    (∀ entries : List DirEntry,
      (∀ e ∈ get_log_entries entries, e.mtime ≠ Option.none) →
      get_log_entries entries ≠ [] →
      ∃ e m, e ∈ get_log_entries entries ∧ e.mtime = some m ∧
        find_latest_log_path (get_log_entries entries) = some e.path ∧
        ∀ e' m', e' ∈ get_log_entries entries → e'.mtime = some m' → m' ≤ m) ∧
    (∀ entries : List DirEntry, get_log_entries entries = [] →
      find_latest_log_path (get_log_entries entries) = Option.none ∧
      ∀ (resolve : NaiveDateTime → LocalResult)
        (fsys : String → Except IOErrorKind (List Char)) (st : VrChatLogProcessor),
        process_log resolve fsys entries st = (st, .error .notFound)) := by
  refine ⟨?_, ?_, ?_⟩
  · intro entries e
    simp [get_log_entries, List.mem_filter]
  · intro entries hmt hne
    obtain ⟨e0, rest0, h0⟩ := List.exists_cons_of_ne_nil hne
    have he0 : e0 ∈ get_log_entries entries := h0 ▸ List.mem_cons_self _ _
    obtain ⟨m0, hm0⟩ := Option.ne_none_iff_exists'.mp (hmt e0 he0)
    have hc0 : (e0, m0) ∈ (get_log_entries entries).filterMap
        (fun e => e.mtime.map (fun m => (e, m))) :=
      (mem_mtime_candidates _ _).mpr ⟨he0, hm0⟩
    obtain ⟨x, xs, hxs⟩ := List.exists_cons_of_ne_nil (List.ne_nil_of_mem hc0)
    set R := xs.foldl (fun a b => if b.2 < a.2 then a else b) x with hR
    have hRmem : R ∈ (get_log_entries entries).filterMap
        (fun e => e.mtime.map (fun m => (e, m))) := by
      rw [hxs]; exact maxByMtime_fold_mem xs x
    obtain ⟨hRe, hRm⟩ := (mem_mtime_candidates _ _).mp hRmem
    refine ⟨R.1, R.2, hRe, hRm, ?_, ?_⟩
    · unfold find_latest_log_path
      rw [hxs]
      simp [maxByMtime, hR]
    · intro e' m' he' hm'
      have : (e', m') ∈ (get_log_entries entries).filterMap
          (fun e => e.mtime.map (fun m => (e, m))) :=
        (mem_mtime_candidates _ _).mpr ⟨he', hm'⟩
      rw [hxs] at this
      exact maxByMtime_fold_ge xs x (e', m') this
  · intro entries h
    have hnone : find_latest_log_path (get_log_entries entries) = Option.none := by
      rw [h]; rfl
    exact ⟨hnone, fun resolve fsys st => by simp [process_log, hnone]⟩

/-- Witness for C7 at concrete inputs: among a matching file modified at
3, a non-matching file at 9 and a matching file at 7, the path of the
matching file modified at 7 is selected; an empty directory yields
nothing and a not-found error. -/
theorem log_selector_contract_witness :
    (∃ e m, e ∈ get_log_entries
        [⟨"output_log_a.txt", "pa", true, some 3⟩,
         ⟨"notes.txt", "pn", true, some 9⟩,
         ⟨"output_log_b.txt", "pb", true, some 7⟩] ∧ e.mtime = some m ∧
      find_latest_log_path (get_log_entries
        [⟨"output_log_a.txt", "pa", true, some 3⟩,
         ⟨"notes.txt", "pn", true, some 9⟩,
         ⟨"output_log_b.txt", "pb", true, some 7⟩]) = some e.path ∧
      ∀ e' m', e' ∈ get_log_entries
        [⟨"output_log_a.txt", "pa", true, some 3⟩,
         ⟨"notes.txt", "pn", true, some 9⟩,
         ⟨"output_log_b.txt", "pb", true, some 7⟩] → e'.mtime = some m' → m' ≤ m) ∧
    find_latest_log_path (get_log_entries ([] : List DirEntry)) = Option.none :=
  ⟨log_selector_contract.2.1
      [⟨"output_log_a.txt", "pa", true, some 3⟩,
       ⟨"notes.txt", "pn", true, some 9⟩,
       ⟨"output_log_b.txt", "pb", true, some 7⟩]
      (by decide) (by decide),
   (log_selector_contract.2.2 [] rfl).1⟩

/-- A cursor at byte offset 0 reads from the start of the content. -/
theorem dropBytes_zero (l : List Char) : dropBytes 0 l = l := by
  cases l with
  | nil => rfl
  | cons c cs => simp [dropBytes]

/-- C5: the rotation state machine of `VrChatLogProcessor::process_log`.
(1) On the first invocation that successfully selects a file `p`
(state has no tracked reader), the whole batch — the lines of `p` read
from byte offset 0 — is delivered with `is_first = true` for every line,
and the installed reader tracks `p` with its cursor advanced over the
full content.  (2) On a later invocation whose selected path `p` differs
from the tracked reader's path, a fresh reader at byte offset 0 is
installed for `p` (the batch is again the lines of `p` from offset 0)
and every delivered line carries `is_first = false`. -/
theorem first_batch_flag_and_rotation
    (resolve : NaiveDateTime → LocalResult)
    (fsys : String → Except IOErrorKind (List Char))
    (entries : List DirEntry) (p : String) (content : List Char)
    (hsel : find_latest_log_path (get_log_entries entries) = some p)
    (hopen : fsys p = .ok content) :
    (∀ st : VrChatLogProcessor, st.reader = Option.none →
      process_log resolve fsys entries st =
        ({ reader := some ⟨p, byteLen content⟩ },
         .ok ((readAppendedAux content 0).1.filterMap
           (fun l => (LogLine.from_line resolve l).map (fun ll => (ll, true)))))) ∧
    (∀ (st : VrChatLogProcessor) (rd : ContinuousFileReader),
      st.reader = some rd → rd.file_path ≠ p →
      process_log resolve fsys entries st =
        ({ reader := some ⟨p, byteLen content⟩ },
         .ok ((readAppendedAux content 0).1.filterMap
           (fun l => (LogLine.from_line resolve l).map (fun ll => (ll, false)))))) := by
  have hread : (⟨p, 0⟩ : ContinuousFileReader).read_appended_lines content =
      (⟨p, byteLen content⟩, (readAppendedAux content 0).1) := by
    unfold ContinuousFileReader.read_appended_lines
    simp only [dropBytes_zero, readAppendedAux_snd, Nat.zero_add]
  constructor
  · intro st hst
    simp [process_log, hsel, hst, hopen, ContinuousFileReader.new, hread]
  · intro st rd hst hne
    simp [process_log, hsel, hst, hopen, if_pos hne, ContinuousFileReader.new, hread]

/-- Witness for C5 at concrete inputs: one matching directory entry for
path "log1" with content "hi\n" (whose single line is log noise and
parses to nothing).  From the untracked state the reader is installed at
offset 0 and drained; from a state tracking "old" the reader is replaced
by a fresh one for "log1" at offset 0 and drained with a non-first
batch. -/
theorem first_batch_flag_and_rotation_witness :
    process_log (fun _ => LocalResult.single 0) (fun _ => .ok ("hi\n".data))
      [⟨"output_log_1.txt", "log1", true, some 5⟩] ⟨Option.none⟩ =
      ({ reader := some ⟨"log1", 3⟩ }, .ok []) ∧
    process_log (fun _ => LocalResult.single 0) (fun _ => .ok ("hi\n".data))
      [⟨"output_log_1.txt", "log1", true, some 5⟩] ⟨some ⟨"old", 7⟩⟩ =
      ({ reader := some ⟨"log1", 3⟩ }, .ok []) := by
  have e1 : readAppendedAux ("hi\n".data) 0 = (["hi"], 3) := by
    rw [readAppendedAux_of_chunk_cons ("hi\n".data) 0 'h' ['i', '\n'] [] (by rfl),
        readAppendedAux_of_chunk_nil [] _ [] rfl]
    rfl
  have h := first_batch_flag_and_rotation (fun _ => LocalResult.single 0)
    (fun _ => .ok ("hi\n".data)) [⟨"output_log_1.txt", "log1", true, some 5⟩]
    "log1" ("hi\n".data) (by decide) rfl
  constructor
  · rw [h.1 ⟨Option.none⟩ rfl, e1]; rfl
  · rw [h.2 ⟨some ⟨"old", 7⟩⟩ ⟨"old", 7⟩ rfl (by decide), e1]; rfl

/-- C8: local-time resolution in `LogLine::from_line`.  For a line whose
header matches and whose captured timestamp parses, if the timezone
reports the naive local time as ambiguous (clock fallback, chrono's
`Ambiguous` carrying the two candidate instants), the parsed line's time
is the earliest of the two candidates; if the timezone reports the local
time as nonexistent (clock spring-forward), the whole line parses to
nothing. -/
theorem from_line_local_time_resolution
    (resolve : NaiveDateTime → LocalResult) (line : String)
    (ts lvl body : List Char) (ndt : NaiveDateTime)
    (hhd : matchHeader line.data = some (ts, lvl, body))
    (hts : parseTimestampStr ts = some ndt) :
    (∀ (lv : LogLevel) (t1 t2 : Int), parseLevel lvl = some lv → t1 ≤ t2 →
      resolve ndt = .ambiguous t1 t2 →
      ∃ ll, LogLine.from_line resolve line = some ll ∧ ll.time = min t1 t2) ∧
    (resolve ndt = .none → LogLine.from_line resolve line = Option.none) := by
  constructor
  · intro lv t1 t2 hlv h12 hres
    refine ⟨{ time := t1, log_level := lv, event := parse_body body,
              body := body.asString }, ?_, (min_eq_left h12).symm⟩
    unfold LogLine.from_line
    simp only [hhd, hts, hres, LocalResult.earliest, hlv]
  · intro hres
    unfold LogLine.from_line
    simp only [hhd, hts, hres, LocalResult.earliest]

/-- Witness for C8 at a concrete line: resolving its naive timestamp as
ambiguous between instants 100 and 200 parses it at time 100; resolving
it as nonexistent rejects the line. -/
theorem from_line_local_time_resolution_witness :
    (∃ ll, LogLine.from_line (fun _ => LocalResult.ambiguous 100 200)
        "2021.11.07 01:30:00 Log        -  hello" = some ll ∧
      ll.time = min 100 200) ∧
    LogLine.from_line (fun _ => LocalResult.none)
        "2021.11.07 01:30:00 Log        -  hello" = Option.none := by
  have h1 := from_line_local_time_resolution
    (fun _ => LocalResult.ambiguous 100 200)
    "2021.11.07 01:30:00 Log        -  hello"
    ("2021.11.07 01:30:00".data) ("Log".data) ("hello".data)
    ⟨2021, 11, 7, 1, 30, 0⟩ (by decide) (by decide)
  have h2 := from_line_local_time_resolution
    (fun _ => LocalResult.none)
    "2021.11.07 01:30:00 Log        -  hello"
    ("2021.11.07 01:30:00".data) ("Log".data) ("hello".data)
    ⟨2021, 11, 7, 1, 30, 0⟩ (by decide) (by decide)
  exact ⟨h1.1 LogLevel.Log 100 200 (by decide) (by decide) rfl, h2.2 rfl⟩

end VrcDoorkeeper
